import Mathlib

/-!
Shallow embedding of the library-management core (library_service.py,
models.py, database.py, app.py).

The SQLite database is modelled as a `LibState` of three lists (the rows of
the `books`, `users` and `borrowed` tables, in insertion order, as produced
by the INSERT-appends of the source; `isbn` and `user_id` are primary keys).
Text keys are modelled as `Nat` (the code only ever compares them for
equality), monetary fines as `ℚ` (every fine in the code is a multiple of
0.50, which float arithmetic handles exactly, so `ℚ` is faithful), and
calendar dates as integer day numbers (`(today - borrow_date).days` becomes
integer subtraction, matching the day-granularity of `%Y-%m-%d` dates).
Each operation returns a structured message mirroring the message string the
source builds; Python crashes (unhandled exceptions on impossible rows)
become `Option.none`.
-/

namespace Library

/-- Membership tiers, `models.py` `User.RULES` keys. The register UI of
`app.py` only offers these three tiers. -/
inductive Membership where
  | Basic
  | Premium
  | VIP
deriving DecidableEq, Repr

/-- `User.max_books`: first component of `RULES[membership]`. -/
def Membership.max_books : Membership → Nat
  | .Basic => 3
  | .Premium => 5
  | .VIP => 10

/-- `User.max_days`: second component of `RULES[membership]`. -/
def Membership.max_days : Membership → Nat
  | .Basic => 14
  | .Premium => 21
  | .VIP => 30

/-- A row of the `books` table (database.py). -/
structure Book where
  isbn : Nat
  title : String
  author : String
  genre : String
  type : String
  total_copies : Int
  available_copies : Int
  borrow_count : Int
deriving DecidableEq, Repr

/-- A row of the `users` table (database.py). -/
structure UserRow where
  user_id : Nat
  name : String
  membership : Membership
  fines : ℚ
deriving DecidableEq, Repr

/-- A row of the `borrowed` table (database.py). -/
structure Loan where
  user_id : Nat
  isbn : Nat
  borrow_date : Int
deriving DecidableEq, Repr

/-- The whole database state. -/
structure LibState where
  books : List Book
  users : List UserRow
  borrowed : List Loan
deriving DecidableEq, Repr

/-- A fresh `library.db` after `setup_tables`. -/
def emptyState : LibState := ⟨[], [], []⟩

/-- `LibraryService.FINE_PER_DAY = 0.50`. -/
def FINE_PER_DAY : ℚ := 1 / 2

/-- `SELECT * FROM books WHERE isbn=?` followed by `result[0]`: the first
(and, `isbn` being the primary key, only) matching row. -/
def findBook (s : LibState) (isbn : Nat) : Option Book :=
  s.books.find? (fun b => b.isbn == isbn)

/-- `SELECT * FROM users WHERE user_id=?` followed by `result[0]`
(`LibraryService.get_user` builds the `User` object from it). -/
def findUser (s : LibState) (uid : Nat) : Option UserRow :=
  s.users.find? (fun u => u.user_id == uid)

/-- Result message of `LibraryService.add_book`. -/
inductive AddBookMsg where
  | duplicateIsbn
  | added (copies : Int) (title : String)
deriving DecidableEq, Repr

/-- `LibraryService.add_book`: reject a duplicate isbn, otherwise
`INSERT INTO books VALUES (isbn, title, author, genre, book_type, copies,
copies, 0)`. -/
def add_book (s : LibState) (isbn : Nat) (title author genre book_type : String)
    (copies : Int) : LibState × AddBookMsg :=
  if s.books.any (fun b => b.isbn == isbn) then
    (s, .duplicateIsbn)
  else
    ({ s with books := s.books ++ [⟨isbn, title, author, genre, book_type, copies, copies, 0⟩] },
      .added copies title)

/-- Result message of `LibraryService.add_user`. -/
inductive RegisterMsg where
  | duplicateUser
  | registered (name : String)
deriving DecidableEq, Repr

/-- `LibraryService.add_user`: reject a duplicate user_id, otherwise
`INSERT INTO users VALUES (user_id, name, membership, 0.0)`. -/
def add_user (s : LibState) (uid : Nat) (name : String) (m : Membership) :
    LibState × RegisterMsg :=
  if s.users.any (fun u => u.user_id == uid) then
    (s, .duplicateUser)
  else
    ({ s with users := s.users ++ [⟨uid, name, m, 0⟩] }, .registered name)

/-- Result message of `LibraryService.borrow_book`, one constructor per
message string the source can return. -/
inductive BorrowMsg where
  | userNotFound
  | payFines (fines : ℚ)
  | limitReached (max_books : Nat)
  | bookNotFound
  | allBorrowed (title : String)
  | success (title : String)
deriving DecidableEq, Repr

/-- `SELECT COUNT(*) FROM borrowed WHERE user_id=?`. -/
def borrowedCountOf (s : LibState) (uid : Nat) : Nat :=
  (s.borrowed.filter (fun l => l.user_id == uid)).length

/-- `LibraryService._check_user_can_borrow`: user exists, then
`user.fines > 10`, then `borrowed_count >= user.max_books()`. -/
def check_user_can_borrow (s : LibState) (uid : Nat) : Option BorrowMsg :=
  match findUser s uid with
  | none => some .userNotFound
  | some user =>
    if 10 < user.fines then some (.payFines user.fines)
    else if user.membership.max_books ≤ borrowedCountOf s uid then
      some (.limitReached user.membership.max_books)
    else none

/-- `LibraryService._check_book_available`: the `(title, error)` pair of the
source as an `Except`. -/
def check_book_available (s : LibState) (isbn : Nat) : Except BorrowMsg String :=
  match findBook s isbn with
  | none => .error .bookNotFound
  | some book =>
    if book.available_copies ≤ 0 then .error (.allBorrowed book.title)
    else .ok book.title

/-- `LibraryService._process_borrow`:
`UPDATE books SET available_copies=available_copies-1,
borrow_count=borrow_count+1 WHERE isbn=?` then
`INSERT INTO borrowed VALUES (user_id, isbn, today)`. -/
def process_borrow (today : Int) (s : LibState) (uid isbn : Nat) : LibState :=
  { s with
    books := s.books.map (fun b =>
      if b.isbn == isbn then
        { b with available_copies := b.available_copies - 1,
                 borrow_count := b.borrow_count + 1 }
      else b),
    borrowed := s.borrowed ++ [⟨uid, isbn, today⟩] }

/-- `LibraryService.borrow_book`: user checks, then book checks, then the
mutation; any error short-circuits before any mutation. -/
def borrow_book (today : Int) (s : LibState) (uid isbn : Nat) : LibState × BorrowMsg :=
  match check_user_can_borrow s uid with
  | some err => (s, err)
  | none =>
    match check_book_available s isbn with
    | .error err => (s, err)
    | .ok title => (process_borrow today s uid isbn, .success title)

/-- The overdue notice appended to a return message:
empty, or `"Late by N days. Fine: $F"`. -/
inductive FineNote where
  | noFine
  | late (overdue_days : Int) (fine : ℚ)
deriving DecidableEq, Repr

/-- Result message of `LibraryService.return_book`. -/
inductive ReturnMsg where
  | notBorrowed
  | returned (title : String) (note : FineNote)
deriving DecidableEq, Repr

/-- `LibraryService._check_user_has_book`:
`SELECT borrow_date FROM borrowed WHERE user_id=? AND isbn=?`, first row. -/
def check_user_has_book (s : LibState) (uid isbn : Nat) : Except ReturnMsg Int :=
  match s.borrowed.find? (fun l => l.user_id == uid && l.isbn == isbn) with
  | none => .error .notBorrowed
  | some loan => .ok loan.borrow_date

/-- `LibraryService._get_book_title`: `none` models the IndexError the
source raises when the book row is absent. -/
def get_book_title (s : LibState) (isbn : Nat) : Option String :=
  (findBook s isbn).map (fun b => b.title)

/-- `UPDATE users SET fines=fines+? WHERE user_id=?`. -/
def addFineTo (uid : Nat) (fine : ℚ) (users : List UserRow) : List UserRow :=
  users.map (fun u =>
    if u.user_id == uid then { u with fines := u.fines + fine } else u)

/-- `LibraryService._calculate_return_fine`: compute
`overdue_days = days_borrowed - user.max_days()`; when positive, add
`overdue_days * FINE_PER_DAY` via `addFineTo`. `none` models the
AttributeError on a missing user. -/
def calculate_return_fine (today : Int) (s : LibState) (uid : Nat)
    (borrow_date : Int) : Option (LibState × FineNote) :=
  let days_borrowed : Int := today - borrow_date
  match findUser s uid with
  | none => none
  | some user =>
    let overdue_days : Int := days_borrowed - user.membership.max_days
    if overdue_days ≤ 0 then some (s, .noFine)
    else
      let fine : ℚ := overdue_days * FINE_PER_DAY
      some ({ s with users := addFineTo uid fine s.users }, .late overdue_days fine)

/-- `LibraryService._process_return`:
`DELETE FROM borrowed WHERE user_id=? AND isbn=? LIMIT 1` (remove one
matching row) then
`UPDATE books SET available_copies=available_copies+1 WHERE isbn=?`. -/
def process_return (s : LibState) (uid isbn : Nat) : LibState :=
  { s with
    borrowed := s.borrowed.eraseP (fun l => l.user_id == uid && l.isbn == isbn),
    books := s.books.map (fun b =>
      if b.isbn == isbn then { b with available_copies := b.available_copies + 1 }
      else b) }

/-- `LibraryService.return_book`: loan check, title lookup, fine
calculation, then the return mutation. -/
def return_book (today : Int) (s : LibState) (uid isbn : Nat) :
    Option (LibState × ReturnMsg) :=
  match check_user_has_book s uid isbn with
  | .error err => some (s, err)
  | .ok borrow_date =>
    match get_book_title s isbn with
    | none => none
    | some title =>
      match calculate_return_fine today s uid borrow_date with
      | none => none
      | some (s1, note) => some (process_return s1 uid isbn, .returned title note)

/-- The status label of `get_borrowed_books`:
`"Due in N days"` or `"Overdue by N days"`. -/
inductive LoanStatus where
  | dueIn (days : Int)
  | overdueBy (days : Int)
deriving DecidableEq, Repr

/-- One dictionary of the `get_borrowed_books` result list. -/
structure BorrowedEntry where
  isbn : Nat
  title : String
  author : String
  days_borrowed : Int
  status : LoanStatus
deriving DecidableEq, Repr

/-- The loop body of `LibraryService.get_borrowed_books`: look the book up,
recompute `days_borrowed` and `days_remaining`, pick the label. -/
def entryFor (today : Int) (s : LibState) (user : UserRow) (loan : Loan) :
    Option BorrowedEntry :=
  match findBook s loan.isbn with
  | none => none
  | some book =>
    let days_borrowed : Int := today - loan.borrow_date
    let days_remaining : Int := (user.membership.max_days : Int) - days_borrowed
    some ⟨loan.isbn, book.title, book.author, days_borrowed,
      if 0 ≤ days_remaining then .dueIn days_remaining
      else .overdueBy (-days_remaining)⟩

/-- The `for isbn, borrow_date_str in borrowed_records` loop of
`get_borrowed_books`; `none` models the crash on a loan whose book row is
missing. -/
def entriesFor (today : Int) (s : LibState) (user : UserRow) :
    List Loan → Option (List BorrowedEntry)
  | [] => some []
  | loan :: rest =>
    match entryFor today s user loan with
    | none => none
    | some e =>
      match entriesFor today s user rest with
      | none => none
      | some es => some (e :: es)

/-- `LibraryService.get_borrowed_books`. Every query it runs is a SELECT, so
the state it hands back is the state it was given. -/
def get_borrowed_books (today : Int) (s : LibState) (uid : Nat) :
    LibState × Option (List BorrowedEntry) :=
  let records := s.borrowed.filter (fun l => l.user_id == uid)
  if records = [] then (s, some [])
  else
    match findUser s uid with
    | none => (s, some [])
    | some user => (s, entriesFor today s user records)

/-- The fields `LibraryService.get_book_details` extracts from
`SELECT * FROM books WHERE isbn=?` plus the computed
`borrowed_copies = total_copies - available_copies`. -/
structure BookDetails where
  isbn : Nat
  title : String
  author : String
  genre : String
  type : String
  total_copies : Int
  available_copies : Int
  borrowed_copies : Int
  borrow_count : Int
deriving DecidableEq, Repr

/-- `LibraryService.get_book_details`. -/
def get_book_details (s : LibState) (isbn : Nat) : Option BookDetails :=
  match findBook s isbn with
  | none => none
  | some b =>
    some ⟨b.isbn, b.title, b.author, b.genre, b.type, b.total_copies,
      b.available_copies, b.total_copies - b.available_copies, b.borrow_count⟩

/-- Number of open loans of one book:
`SELECT COUNT(*) FROM borrowed WHERE isbn=?`. -/
def loanCountOf (s : LibState) (isbn : Nat) : Nat :=
  s.borrowed.countP (fun l => l.isbn == isbn)

/-- Number of open loans of a (user, book) pair. -/
def pairCountOf (s : LibState) (uid isbn : Nat) : Nat :=
  s.borrowed.countP (fun l => l.user_id == uid && l.isbn == isbn)

/-- One core operation, as the UI of `app.py` can issue it. -/
inductive Op where
  | addBook (isbn : Nat) (title author genre book_type : String) (copies : Int)
  | addUser (uid : Nat) (name : String) (membership : Membership)
  | borrow (today : Int) (uid isbn : Nat)
  | ret (today : Int) (uid isbn : Nat)
deriving DecidableEq, Repr

/-- The state after a return attempt: a crashed attempt (`none`) has run no
UPDATE or DELETE yet, so it leaves the database as it was. -/
def retState (today : Int) (s : LibState) (uid isbn : Nat) : LibState :=
  match return_book today s uid isbn with
  | some (s', _) => s'
  | none => s

/-- The copies guard of `app.py::add_book_function`: Digital books get the
sentinel 999, printed books at least 1 copy. -/
def validCopies (book_type : String) (copies : Int) : Prop :=
  (book_type = "Digital" → copies = 999) ∧ (book_type ≠ "Digital" → 1 ≤ copies)

instance (book_type : String) (copies : Int) : Decidable (validCopies book_type copies) := by
  unfold validCopies; infer_instance

/-- The state transition of one operation (read operations touch no state
and need no transition). -/
def applyOp (s : LibState) : Op → LibState
  | .addBook isbn t a g ty c => (add_book s isbn t a g ty c).1
  | .addUser uid n m => (add_user s uid n m).1
  | .borrow today uid isbn => (borrow_book today s uid isbn).1
  | .ret today uid isbn => retState today s uid isbn

/-- The input constraint `app.py` imposes before calling the service. -/
def Op.valid : Op → Prop
  | .addBook _ _ _ _ ty c => validCopies ty c
  | _ => True

instance : (op : Op) → Decidable op.valid
  | .addBook _ _ _ _ ty c => inferInstanceAs (Decidable (validCopies ty c))
  | .addUser _ _ _ => inferInstanceAs (Decidable True)
  | .borrow _ _ _ => inferInstanceAs (Decidable True)
  | .ret _ _ _ => inferInstanceAs (Decidable True)

/-- Run a sequence of operations. -/
def runOps (s : LibState) : List Op → LibState
  | [] => s
  | op :: rest => runOps (applyOp s op) rest

/-- States reachable from a given state by valid core operations. -/
inductive ReachableFrom : LibState → LibState → Prop where
  | refl (s : LibState) : ReachableFrom s s
  | step (op : Op) (hv : op.valid) {s t : LibState} :
      ReachableFrom s t → ReachableFrom s (applyOp t op)

/-- States reachable from the empty library. -/
def Reachable (s : LibState) : Prop := ReachableFrom emptyState s

theorem ReachableFrom.trans {a b c : LibState}
    (hab : ReachableFrom a b) (hbc : ReachableFrom b c) : ReachableFrom a c := by
  revert hab
  induction hbc with
  | refl => exact fun h => h
  | step op hv hbt ih => exact fun h => .step op hv (ih h)

theorem reachableFrom_runOps (s : LibState) (ops : List Op)
    (hv : ∀ op ∈ ops, op.valid) : ReachableFrom s (runOps s ops) := by
  induction ops generalizing s with
  | nil => exact .refl s
  | cons op rest ih =>
    exact ReachableFrom.trans (.step op (hv op (by simp)) (.refl s))
      (ih (applyOp s op) (fun o ho => hv o (by simp [ho])))

/-! ### General list facts -/

theorem find?_map_congr {α : Type} (g : α → α) (p : α → Bool)
    (hg : ∀ a, p (g a) = p a) :
    ∀ l : List α, (l.map g).find? p = (l.find? p).map g := by
  intro l
  induction l with
  | nil => rfl
  | cons a l ih =>
    cases hpa : p a with
    | true => simp [List.find?_cons, hpa, hg a]
    | false => simp [List.find?_cons, hpa, hg a, ih]

theorem pairwise_key_unique {α : Type} (key : α → Nat) {l : List α}
    (h : l.Pairwise (fun a b => key a ≠ key b)) :
    ∀ {a b : α}, a ∈ l → b ∈ l → key a = key b → a = b := by
  induction l with
  | nil => intro a b ha _ _; simp at ha
  | cons x l ih =>
    rw [List.pairwise_cons] at h
    intro a b ha hb hk
    rcases List.mem_cons.mp ha with rfl | ha'
    · rcases List.mem_cons.mp hb with rfl | hb'
      · rfl
      · exact absurd hk (h.1 b hb')
    · rcases List.mem_cons.mp hb with rfl | hb'
      · exact absurd hk.symm (h.1 a ha')
      · exact ih h.2 ha' hb' hk

theorem countP_eraseP_of_mem {α : Type} (p q : α → Bool) {l : List α} {a : α}
    (ha : a ∈ l) (hqa : q a = true) (himp : ∀ x, q x = true → p x = true) :
    (l.eraseP q).countP p + 1 = l.countP p := by
  obtain ⟨a', l₁, l₂, _, hqa', hl, he⟩ := List.exists_of_eraseP ha hqa
  subst hl
  rw [he]
  simp [List.countP_append, List.countP_cons, himp a' hqa']
  omega

theorem countP_eraseP_of_disjoint {α : Type} (p q : α → Bool) (l : List α)
    (hdisj : ∀ x, q x = true → p x = false) :
    (l.eraseP q).countP p = l.countP p := by
  induction l with
  | nil => rfl
  | cons a l ih =>
    cases hqa : q a with
    | true =>
      have := hdisj a hqa
      simp [List.eraseP_cons, hqa, List.countP_cons, this]
    | false => simp [List.eraseP_cons, hqa, List.countP_cons, ih]

/-! ### Case-by-case behaviour of `borrow_book` (the source's check cascade) -/

theorem borrow_book_of_user_none (today : Int) (s : LibState) (uid isbn : Nat)
    (h : findUser s uid = none) :
    borrow_book today s uid isbn = (s, .userNotFound) := by
  simp [borrow_book, check_user_can_borrow, h]

theorem borrow_book_of_fines (today : Int) (s : LibState) (uid isbn : Nat)
    (u : UserRow) (hu : findUser s uid = some u) (hf : 10 < u.fines) :
    borrow_book today s uid isbn = (s, .payFines u.fines) := by
  simp [borrow_book, check_user_can_borrow, hu, hf]

theorem borrow_book_of_limit (today : Int) (s : LibState) (uid isbn : Nat)
    (u : UserRow) (hu : findUser s uid = some u) (hf : ¬ 10 < u.fines)
    (hc : u.membership.max_books ≤ borrowedCountOf s uid) :
    borrow_book today s uid isbn = (s, .limitReached u.membership.max_books) := by
  simp [borrow_book, check_user_can_borrow, hu, hf, hc]

theorem borrow_book_of_book_none (today : Int) (s : LibState) (uid isbn : Nat)
    (u : UserRow) (hu : findUser s uid = some u) (hf : ¬ 10 < u.fines)
    (hc : borrowedCountOf s uid < u.membership.max_books)
    (hb : findBook s isbn = none) :
    borrow_book today s uid isbn = (s, .bookNotFound) := by
  simp [borrow_book, check_user_can_borrow, check_book_available, hu, hf,
    Nat.not_le.mpr hc, hb]

theorem borrow_book_of_unavailable (today : Int) (s : LibState) (uid isbn : Nat)
    (u : UserRow) (b : Book) (hu : findUser s uid = some u) (hf : ¬ 10 < u.fines)
    (hc : borrowedCountOf s uid < u.membership.max_books)
    (hb : findBook s isbn = some b) (hav : b.available_copies ≤ 0) :
    borrow_book today s uid isbn = (s, .allBorrowed b.title) := by
  simp [borrow_book, check_user_can_borrow, check_book_available, hu, hf,
    Nat.not_le.mpr hc, hb, hav]

theorem borrow_book_success_eq (today : Int) (s : LibState) (uid isbn : Nat)
    (u : UserRow) (b : Book) (hu : findUser s uid = some u) (hf : ¬ 10 < u.fines)
    (hc : borrowedCountOf s uid < u.membership.max_books)
    (hb : findBook s isbn = some b) (hav : 0 < b.available_copies) :
    borrow_book today s uid isbn = (process_borrow today s uid isbn, .success b.title) := by
  simp [borrow_book, check_user_can_borrow, check_book_available, hu, hf,
    Nat.not_le.mpr hc, hb, not_le.mpr hav]

/-! ### Case-by-case behaviour of `return_book` -/

theorem return_book_of_no_loan (today : Int) (s : LibState) (uid isbn : Nat)
    (h : s.borrowed.find? (fun l => l.user_id == uid && l.isbn == isbn) = none) :
    return_book today s uid isbn = some (s, .notBorrowed) := by
  simp [return_book, check_user_has_book, h]

theorem return_book_noFine_eq (today : Int) (s : LibState) (uid isbn : Nat)
    (loan : Loan) (b : Book) (u : UserRow)
    (hl : s.borrowed.find? (fun l => l.user_id == uid && l.isbn == isbn) = some loan)
    (hb : findBook s isbn = some b) (hu : findUser s uid = some u)
    (hod : today - loan.borrow_date - (u.membership.max_days : Int) ≤ 0) :
    return_book today s uid isbn =
      some (process_return s uid isbn, .returned b.title .noFine) := by
  simp [return_book, check_user_has_book, get_book_title, calculate_return_fine,
    hl, hb, hu, hod]

theorem return_book_late_eq (today : Int) (s : LibState) (uid isbn : Nat)
    (loan : Loan) (b : Book) (u : UserRow)
    (hl : s.borrowed.find? (fun l => l.user_id == uid && l.isbn == isbn) = some loan)
    (hb : findBook s isbn = some b) (hu : findUser s uid = some u)
    (hod : 0 < today - loan.borrow_date - (u.membership.max_days : Int)) :
    return_book today s uid isbn =
      some (process_return
          { s with users := (addFineTo uid
              ((today - loan.borrow_date - (u.membership.max_days : Int)) * FINE_PER_DAY)
              s.users) } uid isbn,
        .returned b.title
          (.late (today - loan.borrow_date - (u.membership.max_days : Int))
            ((today - loan.borrow_date - (u.membership.max_days : Int)) * FINE_PER_DAY))) := by
  simp [return_book, check_user_has_book, get_book_title, calculate_return_fine,
    hl, hb, hu, not_le.mpr hod]

/-! ### Lookup facts -/

theorem findBook_eq_some {s : LibState} {i : Nat} {b : Book}
    (h : findBook s i = some b) : b ∈ s.books ∧ b.isbn = i :=
  ⟨List.mem_of_find?_eq_some h, by simpa using List.find?_some h⟩

theorem findUser_eq_some {s : LibState} {i : Nat} {u : UserRow}
    (h : findUser s i = some u) : u ∈ s.users ∧ u.user_id = i :=
  ⟨List.mem_of_find?_eq_some h, by simpa using List.find?_some h⟩

theorem check_book_available_ok {s : LibState} {isbn : Nat} {title : String}
    (h : check_book_available s isbn = .ok title) :
    ∃ b, findBook s isbn = some b ∧ 0 < b.available_copies ∧ b.title = title := by
  unfold check_book_available at h
  rcases hfb : findBook s isbn with _ | b
  · rw [hfb] at h; exact absurd h (by simp)
  · rw [hfb] at h
    by_cases hav : b.available_copies ≤ 0
    · simp [hav] at h
    · simp only [hav, if_false] at h
      obtain rfl := (by simpa using h : b.title = title)
      exact ⟨b, rfl, lt_of_not_le hav, rfl⟩

/-! ### The reachable-state invariant -/

/-- The inductive invariant of the database: isbn is a primary key, per-book
accounting balances with the open loans, loans reference existing books, and
fines are non-negative. -/
structure Inv (s : LibState) : Prop where
  booksNodup : s.books.Pairwise (fun a b => a.isbn ≠ b.isbn)
  availNonneg : ∀ b ∈ s.books, 0 ≤ b.available_copies
  balance : ∀ b ∈ s.books, b.available_copies + (loanCountOf s b.isbn : Int) = b.total_copies
  loanHasBook : ∀ l ∈ s.borrowed, ∃ b ∈ s.books, b.isbn = l.isbn
  finesNonneg : ∀ u ∈ s.users, 0 ≤ u.fines

theorem inv_emptyState : Inv emptyState := by
  constructor <;> simp [emptyState]

theorem inv_add_book (s : LibState) (isbn : Nat) (t a g ty : String) (c : Int)
    (hc : 0 ≤ c) (hs : Inv s) : Inv (add_book s isbn t a g ty c).1 := by
  unfold add_book
  by_cases hdup : s.books.any (fun b => b.isbn == isbn)
  · simpa [hdup] using hs
  · have hfresh : ∀ b ∈ s.books, b.isbn ≠ isbn := by simpa using hdup
    simp only [hdup, Bool.false_eq_true, if_false]
    constructor
    · rw [List.pairwise_append]
      refine ⟨hs.booksNodup, by simp, ?_⟩
      intro x hx y hy
      simp only [List.mem_singleton] at hy
      subst hy
      exact hfresh x hx
    · intro b hb
      rcases List.mem_append.mp hb with h | h
      · exact hs.availNonneg b h
      · simp only [List.mem_singleton] at h; subst h; exact hc
    · intro b hb
      rcases List.mem_append.mp hb with h | h
      · exact hs.balance b h
      · simp only [List.mem_singleton] at h
        subst h
        have hzero : loanCountOf { s with
            books := s.books ++ [⟨isbn, t, a, g, ty, c, c, 0⟩] } isbn = 0 := by
          refine List.countP_eq_zero.mpr ?_
          intro l hl
          obtain ⟨bx, hbx, hbxi⟩ := hs.loanHasBook l hl
          simp only [beq_iff_eq]
          intro hli
          exact hfresh bx hbx (hbxi.trans hli)
        simpa [hzero]
    · intro l hl
      obtain ⟨bx, hbx, hbxi⟩ := hs.loanHasBook l hl
      exact ⟨bx, List.mem_append_left _ hbx, hbxi⟩
    · exact hs.finesNonneg

theorem inv_add_user (s : LibState) (uid : Nat) (n : String) (m : Membership)
    (hs : Inv s) : Inv (add_user s uid n m).1 := by
  unfold add_user
  by_cases hdup : s.users.any (fun u => u.user_id == uid)
  · simpa [hdup] using hs
  · simp only [hdup, Bool.false_eq_true, if_false]
    refine ⟨hs.booksNodup, hs.availNonneg, hs.balance, hs.loanHasBook, ?_⟩
    intro u hu
    rcases List.mem_append.mp hu with h | h
    · exact hs.finesNonneg u h
    · simp only [List.mem_singleton] at h; subst h; norm_num

theorem inv_process_borrow (today : Int) (s : LibState) (uid isbn : Nat) (b : Book)
    (hb : findBook s isbn = some b) (hav : 0 < b.available_copies)
    (hs : Inv s) : Inv (process_borrow today s uid isbn) := by
  obtain ⟨hbmem, hbisbn⟩ := findBook_eq_some hb
  set g : Book → Book := fun x =>
    if x.isbn == isbn then
      { x with available_copies := x.available_copies - 1,
               borrow_count := x.borrow_count + 1 }
    else x with hg
  have hgisbn : ∀ x, (g x).isbn = x.isbn := by
    intro x
    simp only [hg]
    split <;> rfl
  constructor
  · show (s.books.map g).Pairwise _
    rw [List.pairwise_map]
    exact hs.booksNodup.imp (by intro x y h; simpa [hgisbn] using h)
  · intro b' hb'
    obtain ⟨x, hx, hxg⟩ := List.mem_map.mp hb'
    rw [← hxg]
    by_cases hxi : x.isbn == isbn
    · have hxeq : x = b := by
        refine pairwise_key_unique Book.isbn hs.booksNodup hx hbmem ?_
        rw [hbisbn]; exact beq_iff_eq.mp hxi
      have hxav : 0 < x.available_copies := by rw [hxeq]; exact hav
      rw [if_pos hxi]
      show 0 ≤ x.available_copies - 1
      omega
    · rw [if_neg hxi]
      exact hs.availNonneg x hx
  · intro b' hb'
    obtain ⟨x, hx, hxg⟩ := List.mem_map.mp hb'
    rw [← hxg]
    have hcount : ∀ i : Nat,
        loanCountOf (process_borrow today s uid isbn) i =
          loanCountOf s i + (if isbn == i then 1 else 0) := by
      intro i
      simp [loanCountOf, process_borrow, List.countP_append, List.countP_cons]
    have hbal := hs.balance x hx
    by_cases hxi : x.isbn == isbn
    · have hxisbn : x.isbn = isbn := beq_iff_eq.mp hxi
      have hii : (isbn == x.isbn) = true := beq_iff_eq.mpr hxisbn.symm
      rw [if_pos hxi]
      show x.available_copies - 1 +
        (loanCountOf (process_borrow today s uid isbn) x.isbn : Int) = x.total_copies
      rw [hcount, hii]
      simp only [if_true]
      push_cast
      omega
    · have hxne : x.isbn ≠ isbn := by simpa using hxi
      have hii : (isbn == x.isbn) = false :=
        beq_eq_false_iff_ne.mpr (fun h => hxne h.symm)
      rw [if_neg hxi]
      show x.available_copies +
        (loanCountOf (process_borrow today s uid isbn) x.isbn : Int) = x.total_copies
      rw [hcount, hii]
      simpa using hbal
  · intro l hl
    simp only [process_borrow] at hl
    rcases List.mem_append.mp hl with h | h
    · obtain ⟨bx, hbx, hbxi⟩ := hs.loanHasBook l h
      exact ⟨g bx, List.mem_map.mpr ⟨bx, hbx, rfl⟩, by rw [hgisbn]; exact hbxi⟩
    · simp only [List.mem_singleton] at h
      subst h
      exact ⟨g b, List.mem_map.mpr ⟨b, hbmem, rfl⟩, by rw [hgisbn]; exact hbisbn⟩
  · exact hs.finesNonneg

theorem inv_borrow_book (today : Int) (s : LibState) (uid isbn : Nat)
    (hs : Inv s) : Inv (borrow_book today s uid isbn).1 := by
  unfold borrow_book
  rcases hchk : check_user_can_borrow s uid with _ | err
  · rcases hbk : check_book_available s isbn with err | title
    · exact hs
    · obtain ⟨b, hb, hav, _⟩ := check_book_available_ok hbk
      exact inv_process_borrow today s uid isbn b hb hav hs
  · exact hs

theorem inv_addFine (s : LibState) (uid : Nat) (fine : ℚ) (hf : 0 ≤ fine)
    (hs : Inv s) : Inv { s with users := addFineTo uid fine s.users } := by
  refine ⟨hs.booksNodup, hs.availNonneg, ?_, hs.loanHasBook, ?_⟩
  · intro b hb
    have := hs.balance b hb
    simpa [loanCountOf] using this
  · intro u hu
    obtain ⟨x, hx, hxg⟩ := List.mem_map.mp hu
    rw [← hxg]
    have := hs.finesNonneg x hx
    by_cases h : x.user_id == uid
    · rw [if_pos h]
      exact add_nonneg this hf
    · rw [if_neg h]
      exact this

theorem inv_process_return (s : LibState) (uid isbn : Nat) (loan : Loan) (b : Book)
    (hl : s.borrowed.find? (fun l => l.user_id == uid && l.isbn == isbn) = some loan)
    (hb : findBook s isbn = some b) (hs : Inv s) :
    Inv (process_return s uid isbn) := by
  obtain ⟨hbmem, hbisbn⟩ := findBook_eq_some hb
  have hlmem : loan ∈ s.borrowed := List.mem_of_find?_eq_some hl
  have hlq := List.find?_some hl
  have hlpair : loan.user_id = uid ∧ loan.isbn = isbn := by
    simpa [Bool.and_eq_true] using hlq
  have hlisbn : loan.isbn = isbn := hlpair.2
  set g : Book → Book := fun x =>
    if x.isbn == isbn then { x with available_copies := x.available_copies + 1 }
    else x with hg
  have hgisbn : ∀ x, (g x).isbn = x.isbn := by
    intro x
    simp only [hg]
    split <;> rfl
  have hcount_target :
      loanCountOf (process_return s uid isbn) isbn + 1 = loanCountOf s isbn := by
    simp only [loanCountOf, process_return]
    refine countP_eraseP_of_mem _ _ hlmem hlq ?_
    intro x hx
    exact ((Bool.and_eq_true _ _).mp hx).2
  have hcount_other : ∀ i : Nat, i ≠ isbn →
      loanCountOf (process_return s uid isbn) i = loanCountOf s i := by
    intro i hi
    simp only [loanCountOf, process_return]
    refine countP_eraseP_of_disjoint _ _ _ ?_
    intro x hx
    have hxi : x.isbn = isbn := by
      have := (Bool.and_eq_true _ _).mp hx
      simpa using this.2
    refine beq_eq_false_iff_ne.mpr ?_
    rw [hxi]
    exact fun h => hi h.symm
  constructor
  · show (s.books.map g).Pairwise _
    rw [List.pairwise_map]
    exact hs.booksNodup.imp (by intro x y h; simpa [hgisbn] using h)
  · intro b' hb'
    obtain ⟨x, hx, hxg⟩ := List.mem_map.mp hb'
    rw [← hxg]
    have := hs.availNonneg x hx
    by_cases hxi : x.isbn == isbn
    · rw [if_pos hxi]
      show 0 ≤ x.available_copies + 1
      omega
    · rw [if_neg hxi]
      exact this
  · intro b' hb'
    obtain ⟨x, hx, hxg⟩ := List.mem_map.mp hb'
    rw [← hxg]
    have hbal := hs.balance x hx
    by_cases hxi : x.isbn == isbn
    · have hxisbn : x.isbn = isbn := beq_iff_eq.mp hxi
      rw [if_pos hxi]
      show x.available_copies + 1 +
        (loanCountOf (process_return s uid isbn) x.isbn : Int) = x.total_copies
      rw [hxisbn] at hbal ⊢
      have hc := hcount_target
      push_cast
      omega
    · have hxne : x.isbn ≠ isbn := by simpa using hxi
      have hc := hcount_other x.isbn hxne
      rw [if_neg hxi]
      show x.available_copies +
        (loanCountOf (process_return s uid isbn) x.isbn : Int) = x.total_copies
      rw [hc]
      exact hbal
  · intro l hl'
    have hlmem' : l ∈ s.borrowed := by
      have : (process_return s uid isbn).borrowed ⊆ s.borrowed := by
        simp only [process_return]
        exact List.eraseP_subset ..
      exact this hl'
    obtain ⟨bx, hbx, hbxi⟩ := hs.loanHasBook l hlmem'
    exact ⟨g bx, List.mem_map.mpr ⟨bx, hbx, rfl⟩, by rw [hgisbn]; exact hbxi⟩
  · exact hs.finesNonneg

theorem fine_nonneg {od : Int} (hod : 0 < od) : (0:ℚ) ≤ (od : ℚ) * FINE_PER_DAY := by
  have h0 : (0:ℚ) ≤ (od : ℚ) := by exact_mod_cast hod.le
  have h1 : (0:ℚ) ≤ FINE_PER_DAY := by norm_num [FINE_PER_DAY]
  exact mul_nonneg h0 h1

theorem return_book_none_of_book_missing (today : Int) (s : LibState) (uid isbn : Nat)
    (loan : Loan)
    (hl : s.borrowed.find? (fun l => l.user_id == uid && l.isbn == isbn) = some loan)
    (hfb : findBook s isbn = none) :
    return_book today s uid isbn = none := by
  simp [return_book, check_user_has_book, hl, get_book_title, hfb]

theorem return_book_none_of_user_missing (today : Int) (s : LibState) (uid isbn : Nat)
    (loan : Loan) (b : Book)
    (hl : s.borrowed.find? (fun l => l.user_id == uid && l.isbn == isbn) = some loan)
    (hfb : findBook s isbn = some b) (hu : findUser s uid = none) :
    return_book today s uid isbn = none := by
  simp [return_book, check_user_has_book, hl, get_book_title, hfb,
    calculate_return_fine, hu]

theorem inv_retState (today : Int) (s : LibState) (uid isbn : Nat)
    (hs : Inv s) : Inv (retState today s uid isbn) := by
  rcases hl : s.borrowed.find? (fun l => l.user_id == uid && l.isbn == isbn) with _ | loan
  · unfold retState
    rw [return_book_of_no_loan today s uid isbn hl]
    exact hs
  · rcases hfb : findBook s isbn with _ | b
    · unfold retState
      rw [return_book_none_of_book_missing today s uid isbn loan hl hfb]
      exact hs
    · rcases hu : findUser s uid with _ | user
      · unfold retState
        rw [return_book_none_of_user_missing today s uid isbn loan b hl hfb hu]
        exact hs
      · by_cases hod : today - loan.borrow_date - (user.membership.max_days : Int) ≤ 0
        · unfold retState
          rw [return_book_noFine_eq today s uid isbn loan b user hl hfb hu hod]
          exact inv_process_return s uid isbn loan b hl hfb hs
        · unfold retState
          rw [return_book_late_eq today s uid isbn loan b user hl hfb hu (lt_of_not_le hod)]
          refine inv_process_return _ uid isbn loan b hl hfb (inv_addFine s uid _ ?_ hs)
          have := fine_nonneg (lt_of_not_le hod)
          push_cast at this ⊢
          exact this

theorem validCopies_nonneg {ty : String} {c : Int} (h : validCopies ty c) : 0 ≤ c := by
  rcases h with ⟨hdig, hpr⟩
  by_cases hty : ty = "Digital"
  · rw [hdig hty]; norm_num
  · exact le_trans (by norm_num) (hpr hty)

theorem inv_applyOp (s : LibState) (op : Op) (hv : op.valid) (hs : Inv s) :
    Inv (applyOp s op) := by
  cases op with
  | addBook isbn t a g ty c => exact inv_add_book s isbn t a g ty c (validCopies_nonneg hv) hs
  | addUser uid n m => exact inv_add_user s uid n m hs
  | borrow today uid isbn => exact inv_borrow_book today s uid isbn hs
  | ret today uid isbn => exact inv_retState today s uid isbn hs

theorem inv_reachableFrom {s t : LibState} (hs : Inv s) (h : ReachableFrom s t) :
    Inv t := by
  revert hs
  induction h with
  | refl => exact fun h => h
  | step op hv _ ih => exact fun h => inv_applyOp _ op hv (ih h)

theorem reachable_inv {s : LibState} (h : Reachable s) : Inv s :=
  inv_reachableFrom inv_emptyState h

/-! ### Range of the two check helpers -/

theorem check_user_can_borrow_error_cases (s : LibState) (uid : Nat) (e : BorrowMsg)
    (h : check_user_can_borrow s uid = some e) :
    e = .userNotFound ∨ (∃ f, e = .payFines f) ∨ ∃ m, e = .limitReached m := by
  rcases hu : findUser s uid with _ | u
  · rw [show check_user_can_borrow s uid = some .userNotFound from by
      simp [check_user_can_borrow, hu]] at h
    left; simpa using h.symm
  · by_cases hf : 10 < u.fines
    · rw [show check_user_can_borrow s uid = some (.payFines u.fines) from by
        simp [check_user_can_borrow, hu, hf]] at h
      right; left; exact ⟨u.fines, by simpa using h.symm⟩
    · by_cases hc : u.membership.max_books ≤ borrowedCountOf s uid
      · rw [show check_user_can_borrow s uid = some (.limitReached u.membership.max_books) from by
          simp [check_user_can_borrow, hu, hf, hc]] at h
        right; right; exact ⟨u.membership.max_books, by simpa using h.symm⟩
      · rw [show check_user_can_borrow s uid = none from by
          simp [check_user_can_borrow, hu, hf, hc]] at h
        simp at h

theorem check_book_available_error_cases (s : LibState) (isbn : Nat) (e : BorrowMsg)
    (h : check_book_available s isbn = .error e) :
    e = .bookNotFound ∨ ∃ t, e = .allBorrowed t := by
  rcases hfb : findBook s isbn with _ | b
  · rw [show check_book_available s isbn = .error .bookNotFound from by
      simp [check_book_available, hfb]] at h
    left; simpa using h.symm
  · by_cases hav : b.available_copies ≤ 0
    · rw [show check_book_available s isbn = .error (.allBorrowed b.title) from by
        simp [check_book_available, hfb, hav]] at h
      right; exact ⟨b.title, by simpa using h.symm⟩
    · rw [show check_book_available s isbn = .ok b.title from by
        simp [check_book_available, hfb, hav]] at h
      simp at h

theorem return_fine_noFine_val (today : Int) (s : LibState) (uid : Nat) (d : Int)
    (u : UserRow) (hu : findUser s uid = some u)
    (hod : today - d - (u.membership.max_days : Int) ≤ 0) :
    calculate_return_fine today s uid d = some (s, .noFine) := by
  simp [calculate_return_fine, hu, hod]

theorem return_fine_late_val (today : Int) (s : LibState) (uid : Nat) (d : Int)
    (u : UserRow) (hu : findUser s uid = some u)
    (hod : 0 < today - d - (u.membership.max_days : Int)) :
    calculate_return_fine today s uid d =
      some ({ s with users := (addFineTo uid
          ((today - d - (u.membership.max_days : Int)) * FINE_PER_DAY) s.users) },
        .late (today - d - (u.membership.max_days : Int))
          ((today - d - (u.membership.max_days : Int)) * FINE_PER_DAY)) := by
  simp [calculate_return_fine, hu, not_le.mpr hod]

theorem calculate_return_fine_state {today : Int} {s : LibState} {uid : Nat} {d : Int}
    {s1 : LibState} {n : FineNote} (h : calculate_return_fine today s uid d = some (s1, n)) :
    s1.books = s.books ∧ s1.borrowed = s.borrowed := by
  rcases hu : findUser s uid with _ | u
  · rw [show calculate_return_fine today s uid d = none from by
      simp [calculate_return_fine, hu]] at h
    simp at h
  · by_cases hod : today - d - (u.membership.max_days : Int) ≤ 0
    · rw [return_fine_noFine_val today s uid d u hu hod] at h
      simp only [Option.some.injEq, Prod.mk.injEq] at h
      rw [← h.1]
      exact ⟨rfl, rfl⟩
    · rw [return_fine_late_val today s uid d u hu (lt_of_not_le hod)] at h
      simp only [Option.some.injEq, Prod.mk.injEq] at h
      rw [← h.1]
      exact ⟨rfl, rfl⟩

/-! ## Claim C1 -/

/-- C1: `borrow_book` checks its preconditions in the fixed order
(1) user exists, (2) `fines ≤ 10.00`, (3) open-loan count `< max_books`,
(4) book exists, (5) `available_copies > 0`, short-circuiting at the first
failure: in each failing case the result is the error of the first violated
precondition, and the state (books, users and loans alike) is returned
unchanged. -/
theorem borrow_checks_fixed_order (today : Int) (s : LibState) (uid isbn : Nat) :
    (findUser s uid = none → borrow_book today s uid isbn = (s, .userNotFound))
    ∧ (∀ u, findUser s uid = some u → 10 < u.fines →
        borrow_book today s uid isbn = (s, .payFines u.fines))
    ∧ (∀ u, findUser s uid = some u → ¬ 10 < u.fines →
        u.membership.max_books ≤ borrowedCountOf s uid →
        borrow_book today s uid isbn = (s, .limitReached u.membership.max_books))
    ∧ (∀ u, findUser s uid = some u → ¬ 10 < u.fines →
        borrowedCountOf s uid < u.membership.max_books → findBook s isbn = none →
        borrow_book today s uid isbn = (s, .bookNotFound))
    ∧ (∀ u b, findUser s uid = some u → ¬ 10 < u.fines →
        borrowedCountOf s uid < u.membership.max_books →
        findBook s isbn = some b → b.available_copies ≤ 0 →
        borrow_book today s uid isbn = (s, .allBorrowed b.title)) :=
  ⟨borrow_book_of_user_none today s uid isbn,
   fun u hu hf => borrow_book_of_fines today s uid isbn u hu hf,
   fun u hu hf hc => borrow_book_of_limit today s uid isbn u hu hf hc,
   fun u hu hf hc hb => borrow_book_of_book_none today s uid isbn u hu hf hc hb,
   fun u b hu hf hc hb hav =>
     borrow_book_of_unavailable today s uid isbn u b hu hf hc hb hav⟩

/-- A one-book, one-user state used by concrete instances: two total copies,
none available, a Basic user with small fines. -/
def wBook1 : Book := ⟨1, "T", "A", "G", "Printed", 2, 0, 2⟩

def wUser1 : UserRow := ⟨7, "N", .Basic, 2⟩

def wS1 : LibState := ⟨[wBook1], [wUser1], []⟩

theorem borrow_checks_fixed_order_witness :
    borrow_book 0 emptyState 7 1 = (emptyState, .userNotFound) ∧
    borrow_book 0 wS1 7 1 = (wS1, .allBorrowed "T") := by
  refine ⟨(borrow_checks_fixed_order 0 emptyState 7 1).1 rfl, ?_⟩
  exact (borrow_checks_fixed_order 0 wS1 7 1).2.2.2.2 wUser1 wBook1 rfl
    (by norm_num [wUser1]) (by decide) rfl (by decide)

/-! ## Claim C2 -/

/-- C2: a successful borrow decrements exactly the borrowed book's
`available_copies` by 1 and increments its `borrow_count` by 1, leaving the
book's other fields, every other book and every user unchanged (the
pointwise-map characterisation states all of this at once); a successful
return increments exactly the returned book's `available_copies` by 1 and
changes no book's `borrow_count`. -/
theorem borrow_return_copy_effects (today : Int) (s : LibState) (uid isbn : Nat) :
    (∀ s' title, borrow_book today s uid isbn = (s', .success title) →
      s'.users = s.users ∧
      s'.books = s.books.map (fun b =>
        if b.isbn == isbn then
          { b with available_copies := b.available_copies - 1,
                   borrow_count := b.borrow_count + 1 }
        else b))
    ∧ (∀ s' title note, return_book today s uid isbn = some (s', .returned title note) →
      s'.books = s.books.map (fun b =>
        if b.isbn == isbn then
          { b with available_copies := b.available_copies + 1 }
        else b)) := by
  constructor
  · intro s' title h
    unfold borrow_book at h
    rcases hchk : check_user_can_borrow s uid with _ | e <;> rw [hchk] at h
    · rcases hbk : check_book_available s isbn with e | t <;> rw [hbk] at h
      · simp only [Prod.mk.injEq] at h
        rcases check_book_available_error_cases s isbn e hbk with he | ⟨t, he⟩ <;>
          rw [he] at h <;> exact absurd h.2 (by simp)
      · simp only [Prod.mk.injEq] at h
        rw [← h.1]
        exact ⟨rfl, rfl⟩
    · simp only [Prod.mk.injEq] at h
      rcases check_user_can_borrow_error_cases s uid e hchk with he | ⟨f, he⟩ | ⟨m, he⟩ <;>
        rw [he] at h <;> exact absurd h.2 (by simp)
  · intro s' title note h
    rcases hl : s.borrowed.find? (fun l => l.user_id == uid && l.isbn == isbn) with _ | loan
    · rw [return_book_of_no_loan today s uid isbn hl] at h
      simp at h
    · rcases hfb : findBook s isbn with _ | b
      · rw [return_book_none_of_book_missing today s uid isbn loan hl hfb] at h
        simp at h
      · rcases hu : findUser s uid with _ | user
        · rw [return_book_none_of_user_missing today s uid isbn loan b hl hfb hu] at h
          simp at h
        · by_cases hod : today - loan.borrow_date - (user.membership.max_days : Int) ≤ 0
          · rw [return_book_noFine_eq today s uid isbn loan b user hl hfb hu hod] at h
            simp only [Option.some.injEq, Prod.mk.injEq] at h
            rw [← h.1]
            rfl
          · rw [return_book_late_eq today s uid isbn loan b user hl hfb hu (lt_of_not_le hod)] at h
            simp only [Option.some.injEq, Prod.mk.injEq] at h
            rw [← h.1]
            rfl

def wBook2 : Book := ⟨1, "T", "A", "G", "Printed", 2, 2, 0⟩

def wUser2 : UserRow := ⟨7, "N", .Basic, 0⟩

def wS2 : LibState := ⟨[wBook2], [wUser2], []⟩

theorem borrow_return_copy_effects_witness :
    (process_borrow 0 wS2 7 1).users = wS2.users ∧
    (process_borrow 0 wS2 7 1).books = wS2.books.map (fun b =>
      if b.isbn == 1 then
        { b with available_copies := b.available_copies - 1,
                 borrow_count := b.borrow_count + 1 }
      else b) :=
  (borrow_return_copy_effects 0 wS2 7 1).1 (process_borrow 0 wS2 7 1) "T" rfl

/-! ## Claim C3 -/

/-- C3: in every state reachable from the empty library by core operations,
every book satisfies `0 ≤ available_copies ≤ total_copies`. -/
theorem reachable_available_le_total (s : LibState) (h : Reachable s) :
    ∀ b ∈ s.books, 0 ≤ b.available_copies ∧ b.available_copies ≤ b.total_copies := by
  intro b hb
  have hi := reachable_inv h
  refine ⟨hi.availNonneg b hb, ?_⟩
  have hbal := hi.balance b hb
  have hc : (0:Int) ≤ (loanCountOf s b.isbn : Int) := Int.natCast_nonneg _
  omega

def wOps3 : List Op :=
  [.addBook 1 "T" "A" "G" "Printed" 2, .addUser 7 "N" .Basic, .borrow 0 7 1]

def wS3 : LibState := runOps emptyState wOps3

theorem reachable_available_le_total_witness :
    0 ≤ (⟨1, "T", "A", "G", "Printed", 2, 1, 1⟩ : Book).available_copies ∧
    (⟨1, "T", "A", "G", "Printed", 2, 1, 1⟩ : Book).available_copies ≤
      (⟨1, "T", "A", "G", "Printed", 2, 1, 1⟩ : Book).total_copies :=
  reachable_available_le_total wS3 (reachableFrom_runOps _ _ (by decide))
    ⟨1, "T", "A", "G", "Printed", 2, 1, 1⟩ (by decide)

/-! ## Claim C5 -/

/-- C5: with the user present, a borrow yields the fines error exactly when
`fines > 10.00`, whatever book is asked for and whatever its availability;
at exactly 10.00 the check passes. -/
theorem fines_gate_iff (today : Int) (s : LibState) (uid isbn : Nat) (u : UserRow)
    (hu : findUser s uid = some u) :
    (10 < u.fines → borrow_book today s uid isbn = (s, .payFines u.fines)) ∧
    (∀ f, (borrow_book today s uid isbn).2 = .payFines f → 10 < u.fines) ∧
    (u.fines = 10 → ∀ f, (borrow_book today s uid isbn).2 ≠ .payFines f) := by
  have key : ∀ f, (borrow_book today s uid isbn).2 = .payFines f → 10 < u.fines := by
    intro f h
    by_contra hf
    rcases Nat.lt_or_ge (borrowedCountOf s uid) u.membership.max_books with hc | hc
    · rcases hfb : findBook s isbn with _ | b
      · rw [borrow_book_of_book_none today s uid isbn u hu hf hc hfb] at h
        simp at h
      · by_cases hav : b.available_copies ≤ 0
        · rw [borrow_book_of_unavailable today s uid isbn u b hu hf hc hfb hav] at h
          simp at h
        · rw [borrow_book_success_eq today s uid isbn u b hu hf hc hfb (lt_of_not_le hav)] at h
          simp at h
    · rw [borrow_book_of_limit today s uid isbn u hu hf hc] at h
      simp at h
  refine ⟨fun hf => borrow_book_of_fines today s uid isbn u hu hf, key, ?_⟩
  intro h10 f h
  have := key f h
  rw [h10] at this
  exact lt_irrefl _ this

def wUser5 : UserRow := ⟨7, "N", .Basic, 1001/100⟩

def wS5 : LibState := ⟨[⟨1, "T", "A", "G", "Printed", 5, 5, 0⟩], [wUser5], []⟩

def wUser5b : UserRow := ⟨7, "N", .Basic, 10⟩

def wS5b : LibState := ⟨[⟨1, "T", "A", "G", "Printed", 5, 5, 0⟩], [wUser5b], []⟩

theorem fines_gate_iff_witness :
    borrow_book 0 wS5 7 1 = (wS5, .payFines (1001/100)) ∧
    (borrow_book 0 wS5b 7 1).2 ≠ .payFines 10 := by
  constructor
  · exact (fines_gate_iff 0 wS5 7 1 wUser5 rfl).1 (by norm_num [wUser5])
  · exact (fines_gate_iff 0 wS5b 7 1 wUser5b rfl).2.2 rfl 10

/-! ## Claim C4 -/

theorem findUser_addFineTo (users : List UserRow) (uid' : Nat) (fine : ℚ) (uid : Nat) :
    (addFineTo uid' fine users).find? (fun u => u.user_id == uid) =
      (users.find? (fun u => u.user_id == uid)).map
        (fun u => if u.user_id == uid' then { u with fines := u.fines + fine } else u) := by
  refine find?_map_congr _ _ ?_ users
  intro a
  by_cases h : a.user_id == uid'
  · rw [if_pos h]
  · rw [if_neg h]

/-- C4: a return of an open loan adds exactly
`overdue_days * FINE_PER_DAY` to the user's fines and reports the fine and
the day count when `overdue_days > 0`, and leaves all users untouched
otherwise, where `overdue_days = (today - borrow_date) - max_days`. -/
theorem return_overdue_fine_exact (today : Int) (s : LibState) (uid isbn : Nat)
    (u : UserRow) (loan : Loan) (s' : LibState) (title : String) (note : FineNote)
    (hu : findUser s uid = some u)
    (hl : s.borrowed.find? (fun l => l.user_id == uid && l.isbn == isbn) = some loan)
    (hr : return_book today s uid isbn = some (s', .returned title note)) :
    (0 < today - loan.borrow_date - (u.membership.max_days : Int) →
      note = .late (today - loan.borrow_date - (u.membership.max_days : Int))
        ((today - loan.borrow_date - (u.membership.max_days : Int)) * FINE_PER_DAY) ∧
      findUser s' uid = some { u with fines := u.fines +
        (today - loan.borrow_date - (u.membership.max_days : Int)) * FINE_PER_DAY }) ∧
    (today - loan.borrow_date - (u.membership.max_days : Int) ≤ 0 →
      note = .noFine ∧ s'.users = s.users) := by
  rcases hfb : findBook s isbn with _ | b
  · rw [return_book_none_of_book_missing today s uid isbn loan hl hfb] at hr
    simp at hr
  · by_cases hod : today - loan.borrow_date - (u.membership.max_days : Int) ≤ 0
    · rw [return_book_noFine_eq today s uid isbn loan b u hl hfb hu hod] at hr
      simp only [Option.some.injEq, Prod.mk.injEq, ReturnMsg.returned.injEq] at hr
      constructor
      · intro hpos
        exact absurd hod (not_le.mpr hpos)
      · intro _
        refine ⟨hr.2.2.symm, ?_⟩
        rw [← hr.1]
        rfl
    · rw [return_book_late_eq today s uid isbn loan b u hl hfb hu (lt_of_not_le hod)] at hr
      simp only [Option.some.injEq, Prod.mk.injEq, ReturnMsg.returned.injEq] at hr
      constructor
      · intro _
        refine ⟨hr.2.2.symm, ?_⟩
        rw [← hr.1]
        show (addFineTo uid _ s.users).find? (fun v => v.user_id == uid) = _
        rw [findUser_addFineTo]
        have hu' : s.users.find? (fun v => v.user_id == uid) = some u := hu
        rw [hu']
        have hbeq : (u.user_id == uid) = true := beq_iff_eq.mpr (findUser_eq_some hu).2
        simp [hbeq]
        intro hne
        exact absurd (beq_iff_eq.mp hbeq) hne
      · intro hle
        exact absurd hle hod

def wBook4 : Book := ⟨1, "T", "A", "G", "Printed", 1, 0, 1⟩

def wUser4 : UserRow := ⟨7, "N", .Basic, 0⟩

def wS4 : LibState := ⟨[wBook4], [wUser4], [⟨7, 1, 0⟩]⟩

/-- The state after the Basic user returns the book 20 days late-window:
6 overdue days, 3.00 of fines. -/
def wS4late : LibState := ⟨[⟨1, "T", "A", "G", "Printed", 1, 1, 1⟩], [⟨7, "N", .Basic, 3⟩], []⟩

def wS4onTime : LibState := ⟨[⟨1, "T", "A", "G", "Printed", 1, 1, 1⟩], [⟨7, "N", .Basic, 0⟩], []⟩

theorem return_overdue_fine_exact_witness :
    return_book 20 wS4 7 1 = some (wS4late, .returned "T" (.late 6 3)) ∧
    findUser wS4late 7 = some ⟨7, "N", .Basic, 3⟩ ∧
    return_book 10 wS4 7 1 = some (wS4onTime, .returned "T" .noFine) ∧
    wS4onTime.users = wS4.users := by
  have hr20 : return_book 20 wS4 7 1 = some (wS4late, .returned "T" (.late 6 3)) := by
    rw [return_book_late_eq 20 wS4 7 1 ⟨7, 1, 0⟩ wBook4 wUser4 rfl rfl rfl (by decide)]
    simp only [Option.some.injEq, Prod.mk.injEq, ReturnMsg.returned.injEq, FineNote.late.injEq,
      process_return, addFineTo, wS4, wS4late, wBook4, wUser4, LibState.mk.injEq]
    norm_num [FINE_PER_DAY, Membership.max_days]
  have h20 := return_overdue_fine_exact 20 wS4 7 1 wUser4 ⟨7, 1, 0⟩ wS4late "T"
    (.late 6 3) rfl rfl hr20
  have h10 := return_overdue_fine_exact 10 wS4 7 1 wUser4 ⟨7, 1, 0⟩ wS4onTime "T"
    .noFine rfl rfl (by decide)
  refine ⟨hr20, ?_, by decide, (h10.2 (by decide)).2⟩
  have h2 := (h20.1 (by decide)).2
  rw [h2]
  norm_num [wUser4, FINE_PER_DAY, Membership.max_days]

/-! ## Claim C8 -/

/-- C8: adding a fresh isbn succeeds and an immediate `get_book_details`
reports `total_copies = copies`, `available_copies = copies`,
`borrowed_copies = 0` and `borrow_count = 0`. -/
theorem add_book_details_roundtrip (s : LibState) (isbn : Nat)
    (title author genre book_type : String) (copies : Int)
    (hfresh : s.books.any (fun b => b.isbn == isbn) = false) :
    add_book s isbn title author genre book_type copies =
      ({ s with books := s.books ++
          [⟨isbn, title, author, genre, book_type, copies, copies, 0⟩] },
        .added copies title) ∧
    get_book_details (add_book s isbn title author genre book_type copies).1 isbn =
      some ⟨isbn, title, author, genre, book_type, copies, copies, 0, 0⟩ := by
  have h1 : add_book s isbn title author genre book_type copies =
      ({ s with books := s.books ++
          [⟨isbn, title, author, genre, book_type, copies, copies, 0⟩] },
        .added copies title) := by
    simp [add_book, hfresh]
  refine ⟨h1, ?_⟩
  rw [h1]
  have hnone : s.books.find? (fun b => b.isbn == isbn) = none := by
    refine List.find?_eq_none.mpr ?_
    intro x hx
    have := List.any_eq_false.mp hfresh x hx
    simpa using this
  have hfind : findBook ({ s with books := s.books ++
      [⟨isbn, title, author, genre, book_type, copies, copies, 0⟩] } : LibState) isbn =
      some ⟨isbn, title, author, genre, book_type, copies, copies, 0⟩ := by
    show (s.books ++ [(⟨isbn, title, author, genre, book_type, copies, copies, 0⟩ : Book)]).find?
        (fun b => b.isbn == isbn) =
      some ⟨isbn, title, author, genre, book_type, copies, copies, 0⟩
    rw [List.find?_append, hnone]
    simp
  simp [get_book_details, hfind]

def wS8 : LibState := ⟨[], [⟨7, "N", .Basic, 0⟩], []⟩

theorem add_book_details_roundtrip_witness :
    get_book_details (add_book wS8 1 "T" "A" "G" "Printed" 5).1 1 =
      some ⟨1, "T", "A", "G", "Printed", 5, 5, 0, 0⟩ :=
  (add_book_details_roundtrip wS8 1 "T" "A" "G" "Printed" 5 rfl).2

/-! ## Claim C9 -/

/-- The days bookkeeping the spec ascribes to one listed loan:
`days_borrowed` recomputed from today, `days_remaining = max_days −
days_borrowed`, labelled due/overdue by its sign. -/
def entrySpec (today : Int) (user : UserRow) (l : Loan) (e : BorrowedEntry) : Prop :=
  e.days_borrowed = today - l.borrow_date ∧
  e.status = (if 0 ≤ (user.membership.max_days : Int) - (today - l.borrow_date)
    then .dueIn ((user.membership.max_days : Int) - (today - l.borrow_date))
    else .overdueBy (-((user.membership.max_days : Int) - (today - l.borrow_date))))

theorem entriesFor_forall2 (today : Int) (s : LibState) (user : UserRow) :
    ∀ (L : List Loan) (es : List BorrowedEntry),
      entriesFor today s user L = some es →
      List.Forall₂ (entrySpec today user) L es := by
  intro L
  induction L with
  | nil =>
    intro es h
    simp only [entriesFor, Option.some.injEq] at h
    rw [← h]
    exact List.Forall₂.nil
  | cons l L ih =>
    intro es h
    unfold entriesFor at h
    rcases he : entryFor today s user l with _ | e <;> rw [he] at h
    · simp at h
    · rcases hrest : entriesFor today s user L with _ | es' <;> rw [hrest] at h
      · simp at h
      · simp only [Option.some.injEq] at h
        rw [← h]
        refine List.Forall₂.cons ?_ (ih es' hrest)
        unfold entryFor at he
        rcases hfb : findBook s l.isbn with _ | book <;> rw [hfb] at he
        · simp at he
        · simp only [Option.some.injEq] at he
          rw [← he]
          exact ⟨rfl, rfl⟩

/-- C9: `get_borrowed_books` hands the state back untouched (every query it
issues is a SELECT), and each reported entry carries
`days_borrowed = today - borrow_date` and the due-in/overdue-by label
derived from `days_remaining = max_days - days_borrowed`, even for loans
already overdue. -/
theorem get_borrowed_books_readonly_spec (today : Int) (s : LibState) (uid : Nat) :
    (get_borrowed_books today s uid).1 = s ∧
    (∀ user entries, findUser s uid = some user →
      (get_borrowed_books today s uid).2 = some entries →
      List.Forall₂ (entrySpec today user)
        (s.borrowed.filter (fun l => l.user_id == uid)) entries) := by
  constructor
  · unfold get_borrowed_books
    by_cases h : s.borrowed.filter (fun l => l.user_id == uid) = []
    · simp [h]
    · rcases hu : findUser s uid with _ | user <;> simp [h, hu]
  · intro user entries hu he
    unfold get_borrowed_books at he
    by_cases h : s.borrowed.filter (fun l => l.user_id == uid) = []
    · simp only [h, if_true] at he
      simp only [Option.some.injEq] at he
      rw [← he, h]
      exact List.Forall₂.nil
    · simp only [h, if_false, hu] at he
      exact entriesFor_forall2 today s user _ entries he

def wS9 : LibState :=
  ⟨[⟨1, "T", "A", "G", "Printed", 1, 0, 1⟩], [⟨7, "N", .Basic, 0⟩], [⟨7, 1, 0⟩]⟩

theorem get_borrowed_books_readonly_spec_witness :
    (get_borrowed_books 5 wS9 7).1 = wS9 ∧
    List.Forall₂ (entrySpec 5 ⟨7, "N", .Basic, 0⟩)
      (wS9.borrowed.filter (fun l => l.user_id == 7)) [⟨1, "T", "A", 5, .dueIn 9⟩] :=
  ⟨(get_borrowed_books_readonly_spec 5 wS9 7).1,
   (get_borrowed_books_readonly_spec 5 wS9 7).2 ⟨7, "N", .Basic, 0⟩
     [⟨1, "T", "A", 5, .dueIn 9⟩] rfl (by decide)⟩

/-! ## Claim C10 -/

theorem add_book_users (s : LibState) (isbn : Nat) (t a g ty : String) (c : Int) :
    (add_book s isbn t a g ty c).1.users = s.users := by
  unfold add_book
  split <;> rfl

theorem borrow_book_users (today : Int) (s : LibState) (uid isbn : Nat) :
    (borrow_book today s uid isbn).1.users = s.users := by
  cases hc : check_user_can_borrow s uid with
  | none =>
    cases hb : check_book_available s isbn with
    | error e => simp [borrow_book, hc, hb]
    | ok t => simp [borrow_book, hc, hb, process_borrow]
  | some e => simp [borrow_book, hc]

theorem return_book_users_shape (today : Int) (s : LibState) (uid isbn : Nat)
    (s' : LibState) (msg : ReturnMsg) (h : return_book today s uid isbn = some (s', msg)) :
    s'.users = s.users ∨ ∃ fine : ℚ, 0 ≤ fine ∧ s'.users = addFineTo uid fine s.users := by
  rcases hl : s.borrowed.find? (fun l => l.user_id == uid && l.isbn == isbn) with _ | loan
  · rw [return_book_of_no_loan today s uid isbn hl] at h
    simp only [Option.some.injEq, Prod.mk.injEq] at h
    left
    rw [← h.1]
  · rcases hfb : findBook s isbn with _ | b
    · rw [return_book_none_of_book_missing today s uid isbn loan hl hfb] at h
      simp at h
    · rcases hu : findUser s uid with _ | user
      · rw [return_book_none_of_user_missing today s uid isbn loan b hl hfb hu] at h
        simp at h
      · by_cases hod : today - loan.borrow_date - (user.membership.max_days : Int) ≤ 0
        · rw [return_book_noFine_eq today s uid isbn loan b user hl hfb hu hod] at h
          simp only [Option.some.injEq, Prod.mk.injEq] at h
          left
          rw [← h.1]
          rfl
        · rw [return_book_late_eq today s uid isbn loan b user hl hfb hu (lt_of_not_le hod)] at h
          simp only [Option.some.injEq, Prod.mk.injEq] at h
          right
          refine ⟨(today - loan.borrow_date - (user.membership.max_days : Int)) * FINE_PER_DAY,
            ?_, ?_⟩
          · have := fine_nonneg (lt_of_not_le hod)
            push_cast at this ⊢
            exact this
          · rw [← h.1]
            rfl

theorem findUser_after_addFine (users : List UserRow) (uid' : Nat) (fine : ℚ)
    (hf : 0 ≤ fine) (uid : Nat) (u : UserRow)
    (hu : users.find? (fun v => v.user_id == uid) = some u) :
    ∃ u', (addFineTo uid' fine users).find? (fun v => v.user_id == uid) = some u' ∧
      u.fines ≤ u'.fines := by
  refine ⟨if u.user_id == uid' then { u with fines := u.fines + fine } else u, ?_, ?_⟩
  · rw [findUser_addFineTo, hu]
    rfl
  · by_cases h : u.user_id == uid'
    · rw [if_pos h]
      exact le_add_of_nonneg_right hf
    · rw [if_neg h]

theorem applyOp_fines_mono (s : LibState) (op : Op) (uid : Nat) (u : UserRow)
    (hu : findUser s uid = some u) :
    ∃ u', findUser (applyOp s op) uid = some u' ∧ u.fines ≤ u'.fines := by
  cases op with
  | addBook isbn t a g ty c =>
    refine ⟨u, ?_, le_refl _⟩
    show ((add_book s isbn t a g ty c).1).users.find? (fun v => v.user_id == uid) = some u
    rw [add_book_users]
    exact hu
  | addUser uid' n m =>
    refine ⟨u, ?_, le_refl _⟩
    show ((add_user s uid' n m).1).users.find? (fun v => v.user_id == uid) = some u
    unfold add_user
    split
    · exact hu
    · show (s.users ++ [(⟨uid', n, m, 0⟩ : UserRow)]).find? (fun v => v.user_id == uid) = some u
      rw [List.find?_append]
      have hu' : s.users.find? (fun v => v.user_id == uid) = some u := hu
      rw [hu']
      rfl
  | borrow today uid' isbn =>
    refine ⟨u, ?_, le_refl _⟩
    show ((borrow_book today s uid' isbn).1).users.find? (fun v => v.user_id == uid) = some u
    rw [borrow_book_users]
    exact hu
  | ret today uid' isbn =>
    rcases hr : return_book today s uid' isbn with _ | p
    · refine ⟨u, ?_, le_refl _⟩
      show findUser (retState today s uid' isbn) uid = some u
      unfold retState
      rw [hr]
      exact hu
    · rcases p with ⟨s1, msg⟩
      rcases return_book_users_shape today s uid' isbn s1 msg hr with hsame | ⟨fine, hf, hadd⟩
      · refine ⟨u, ?_, le_refl _⟩
        show findUser (retState today s uid' isbn) uid = some u
        unfold retState
        rw [hr]
        show s1.users.find? (fun v => v.user_id == uid) = some u
        rw [hsame]
        exact hu
      · obtain ⟨u', hu', hle⟩ := findUser_after_addFine s.users uid' fine hf uid u hu
        refine ⟨u', ?_, hle⟩
        show findUser (retState today s uid' isbn) uid = some u'
        unfold retState
        rw [hr]
        show s1.users.find? (fun v => v.user_id == uid) = some u'
        rw [hadd]
        exact hu'

theorem reachableFrom_fines_mono {s t : LibState} (h : ReachableFrom s t) :
    ∀ uid u, findUser s uid = some u →
      ∃ u', findUser t uid = some u' ∧ u.fines ≤ u'.fines := by
  induction h with
  | refl => exact fun uid u hu => ⟨u, hu, le_refl _⟩
  | step op hv ht ih =>
    intro uid u hu
    obtain ⟨u1, hu1, hle1⟩ := ih uid u hu
    obtain ⟨u2, hu2, hle2⟩ := applyOp_fines_mono _ op uid u1 hu1
    exact ⟨u2, hu2, le_trans hle1 hle2⟩

theorem add_user_new_fines (s : LibState) (uid : Nat) (n : String) (m : Membership) :
    ∀ v ∈ ((add_user s uid n m).1).users, v ∈ s.users ∨ v.fines = 0 := by
  unfold add_user
  split
  · intro v hv
    exact Or.inl hv
  · intro v hv
    rcases List.mem_append.mp hv with h | h
    · exact Or.inl h
    · simp only [List.mem_singleton] at h
      subst h
      exact Or.inr rfl

/-- C10 (implicit): fines are non-negative in every reachable state,
registration only ever adds users whose fines are 0, a user's fines never
decrease along any continuation of core operations, and once a user's fines
exceed 10.00 every later borrow of that user fails with the fines error
(the core has no fine-payment operation). -/
theorem fines_never_decrease_no_amnesty (s t : LibState) (uid : Nat) (u : UserRow)
    (hs : Reachable s) (hst : ReachableFrom s t) (hu : findUser s uid = some u) :
    (∀ v ∈ s.users, 0 ≤ v.fines) ∧
    (∀ uid' name m v, v ∈ ((add_user t uid' name m).1).users → v ∈ t.users ∨ v.fines = 0) ∧
    (∃ u', findUser t uid = some u' ∧ u.fines ≤ u'.fines ∧
      (10 < u.fines → ∀ today isbn, borrow_book today t uid isbn = (t, .payFines u'.fines))) := by
  refine ⟨(reachable_inv hs).finesNonneg,
    fun uid' name m => add_user_new_fines t uid' name m, ?_⟩
  obtain ⟨u', hu', hle⟩ := reachableFrom_fines_mono hst uid u hu
  refine ⟨u', hu', hle, fun h10 today isbn => ?_⟩
  exact borrow_book_of_fines today t uid isbn u' hu' (lt_of_lt_of_le h10 hle)

/-- Four operations that leave user 7 with 11.00 of fines: a 1-copy book is
borrowed on day 0 and returned on day 36, 22 days past the Basic limit. -/
def wOps10 : List Op :=
  [.addBook 1 "T" "A" "G" "Printed" 1, .addUser 7 "N" .Basic,
   .borrow 0 7 1, .ret 36 7 1]

def wS10 : LibState := runOps emptyState wOps10

theorem fines_never_decrease_no_amnesty_witness :
    borrow_book 40 wS10 7 1 = (wS10, .payFines 11) := by
  have hu : findUser wS10 7 = some ⟨7, "N", .Basic, 11⟩ := by
    show findUser (retState 36 (runOps emptyState (wOps10.take 3)) 7 1) 7 = _
    rw [show retState 36 (runOps emptyState (wOps10.take 3)) 7 1 =
        process_return { runOps emptyState (wOps10.take 3) with
          users := (addFineTo 7 ((36 - 0 - ((14:Nat) : Int)) * FINE_PER_DAY)
            (runOps emptyState (wOps10.take 3)).users) } 7 1 from by
      unfold retState
      rw [return_book_late_eq 36 (runOps emptyState (wOps10.take 3)) 7 1 ⟨7, 1, 0⟩
        ⟨1, "T", "A", "G", "Printed", 1, 0, 1⟩ ⟨7, "N", .Basic, 0⟩ (by decide) (by decide)
        (by decide) (by decide)]
      rfl]
    show (addFineTo 7 ((36 - 0 - ((14:Nat) : Int)) * FINE_PER_DAY)
      (runOps emptyState (wOps10.take 3)).users).find? (fun v => v.user_id == 7) = _
    rw [show (runOps emptyState (wOps10.take 3)).users = [⟨7, "N", .Basic, 0⟩] from by decide]
    simp only [addFineTo, List.map_cons, List.map_nil]
    rw [List.find?_cons_of_pos _ (by decide)]
    norm_num [FINE_PER_DAY]
  obtain ⟨hnn, hreg, u', hu', hle, hblock⟩ :=
    fines_never_decrease_no_amnesty wS10 wS10 7 ⟨7, "N", .Basic, 11⟩
      (reachableFrom_runOps emptyState wOps10 (by decide)) (.refl _) hu
  have hueq : u' = ⟨7, "N", .Basic, 11⟩ := by
    rw [hu] at hu'
    exact (Option.some.inj hu').symm
  rw [hueq] at hblock
  exact hblock (by norm_num) 40 1

/-! ## Claim C6 -/

/-- A two-copy book, one Basic user, and the same book borrowed twice by
that user: `borrow_book` never checks whether the user already holds the
book, so with two copies on the shelf the second borrow also succeeds. -/
def c6Ops : List Op :=
  [.addBook 1 "T" "A" "G" "Printed" 2, .addUser 7 "N" .Basic,
   .borrow 0 7 1, .borrow 0 7 1]

def c6State : LibState := runOps emptyState c6Ops

/-- C6 counterexample: a reachable state in which the pair (user 7, isbn 1)
holds two simultaneous open loans — the second borrow of the same book
succeeds, so the business-logic checks do not enforce at-most-one open loan
per (user, book). -/
theorem duplicate_open_loans_reachable :
    Reachable c6State ∧
    (borrow_book 0 (runOps emptyState (c6Ops.take 3)) 7 1).2 = .success "T" ∧
    pairCountOf c6State 7 1 = 2 :=
  ⟨reachableFrom_runOps emptyState c6Ops (by decide), by decide, by decide⟩

/-- C6 amended: what the checks do enforce is the availability bound — in
every reachable state a (user, book) pair holds at most `total_copies`
simultaneous open loans (as does the whole user population together). -/
theorem open_loans_bounded_by_copies (s : LibState) (h : Reachable s) :
    ∀ b ∈ s.books, ∀ uid, (pairCountOf s uid b.isbn : Int) ≤ b.total_copies := by
  intro b hb uid
  have hi := reachable_inv h
  have hbal := hi.balance b hb
  have hav := hi.availNonneg b hb
  have hmono : pairCountOf s uid b.isbn ≤ loanCountOf s b.isbn := by
    refine List.countP_mono_left ?_
    intro l hl hp
    exact ((Bool.and_eq_true _ _).mp hp).2
  omega

theorem open_loans_bounded_by_copies_witness :
    (pairCountOf c6State 7 1 : Int) ≤ 2 := by
  have := open_loans_bounded_by_copies c6State
    (reachableFrom_runOps emptyState c6Ops (by decide))
    ⟨1, "T", "A", "G", "Printed", 2, 0, 2⟩ (by decide) 7
  simpa using this

/-! ## Claim C7 -/

/-- The Digital book of the C7 scenario, added through the app with the
sentinel 999: only its two mutable counters vary. -/
def digitalBook (avail count : Int) : Book :=
  ⟨1, "D", "A", "G", "Digital", 999, avail, count⟩

def vipUser (i : Nat) : UserRow := ⟨i, "U", .VIP, 0⟩

/-- Users 1..n, registered in order. -/
def vipUsers : Nat → List UserRow
  | 0 => []
  | n + 1 => vipUsers n ++ [vipUser (n + 1)]

def vipLoan (i : Nat) : Loan := ⟨i, 1, 0⟩

/-- `j` open loans of user `m` on the digital book, all taken on day 0. -/
def userBlock (m j : Nat) : List Loan := List.replicate j (vipLoan m)

/-- All loans after the first `m` users borrowed the digital book ten times
each. -/
def fullLoans : Nat → List Loan
  | 0 => []
  | m + 1 => fullLoans m ++ userBlock (m + 1) 10

/-- The library during the C7 run: the digital book, 100 VIP users, and the
loans accumulated so far. -/
def c7State (avail count : Int) (L : List Loan) : LibState :=
  ⟨[digitalBook avail count], vipUsers 100, L⟩

theorem mem_vipUsers : ∀ (n : Nat) (u : UserRow), u ∈ vipUsers n →
    ∃ i, 1 ≤ i ∧ i ≤ n ∧ u = vipUser i := by
  intro n
  induction n with
  | zero => intro u hu; simp [vipUsers] at hu
  | succ n ih =>
    intro u hu
    rcases List.mem_append.mp hu with h | h
    · obtain ⟨i, h1, h2, h3⟩ := ih u h
      exact ⟨i, h1, Nat.le_succ_of_le h2, h3⟩
    · simp only [List.mem_singleton] at h
      exact ⟨n + 1, by omega, le_refl _, h⟩

theorem find_vipUsers : ∀ (n m : Nat), 1 ≤ m → m ≤ n →
    (vipUsers n).find? (fun u => u.user_id == m) = some (vipUser m) := by
  intro n
  induction n with
  | zero => intro m h1 h2; omega
  | succ n ih =>
    intro m h1 h2
    show (vipUsers n ++ [vipUser (n + 1)]).find? (fun u => u.user_id == m) = some (vipUser m)
    rw [List.find?_append]
    by_cases hm : m ≤ n
    · rw [ih m h1 hm]
      rfl
    · have hm1 : m = n + 1 := by omega
      have hnone : (vipUsers n).find? (fun u => u.user_id == m) = none := by
        refine List.find?_eq_none.mpr ?_
        intro x hx
        obtain ⟨i, hi1, hi2, rfl⟩ := mem_vipUsers n x hx
        simp only [vipUser, beq_iff_eq]
        omega
      rw [hnone]
      simp [vipUser, hm1]

theorem c7_register_phase : ∀ n : Nat, n ≤ 100 →
    ReachableFrom emptyState (⟨[digitalBook 999 0], vipUsers n, []⟩ : LibState) := by
  intro n
  induction n with
  | zero =>
    intro _
    have hv : (Op.addBook 1 "D" "A" "G" "Digital" 999).valid := by
      constructor
      · intro _; rfl
      · intro h; exact absurd rfl h
    have h := ReachableFrom.step (.addBook 1 "D" "A" "G" "Digital" 999) hv
      (.refl emptyState)
    have he : applyOp emptyState (.addBook 1 "D" "A" "G" "Digital" 999) =
        (⟨[digitalBook 999 0], vipUsers 0, []⟩ : LibState) := by decide
    rw [he] at h
    exact h
  | succ n ih =>
    intro hn
    have h1 := ih (by omega)
    have hany : (vipUsers n).any (fun u => u.user_id == (n + 1)) = false := by
      rw [List.any_eq_false]
      intro x hx
      obtain ⟨i, hi1, hi2, rfl⟩ := mem_vipUsers n x hx
      simp only [vipUser, beq_iff_eq]
      omega
    have hstep : applyOp (⟨[digitalBook 999 0], vipUsers n, []⟩ : LibState)
        (.addUser (n + 1) "U" .VIP) = (⟨[digitalBook 999 0], vipUsers (n + 1), []⟩ : LibState) := by
      show (add_user _ (n + 1) "U" .VIP).1 = _
      unfold add_user
      rw [if_neg (by simp [hany])]
      rfl
    have h2 := ReachableFrom.step (.addUser (n + 1) "U" .VIP) trivial h1
    rw [hstep] at h2
    exact h2

theorem c7_borrow_step (L : List Loan) (a k : Int) (m : Nat)
    (hm1 : 1 ≤ m) (hm2 : m ≤ 100)
    (hcnt : (L.filter (fun l => l.user_id == m)).length < 10)
    (ha : 0 < a) :
    borrow_book 0 (c7State a k L) m 1 =
      (c7State (a - 1) (k + 1) (L ++ [vipLoan m]), .success "D") := by
  have hu : findUser (c7State a k L) m = some (vipUser m) := find_vipUsers 100 m hm1 hm2
  have hf : ¬ (10:ℚ) < (vipUser m).fines := by norm_num [vipUser]
  have hc : borrowedCountOf (c7State a k L) m < (vipUser m).membership.max_books := by
    show (L.filter (fun l => l.user_id == m)).length < 10
    exact hcnt
  have hb : findBook (c7State a k L) 1 = some (digitalBook a k) := rfl
  have hav : 0 < (digitalBook a k).available_copies := ha
  rw [borrow_book_success_eq 0 (c7State a k L) m 1 (vipUser m) (digitalBook a k)
    hu hf hc hb hav]
  rfl

theorem c7_user_run (m : Nat) (hm1 : 1 ≤ m) (hm2 : m ≤ 100) (P : List Loan) (a k : Int)
    (hP : (P.filter (fun l => l.user_id == m)).length = 0) :
    ∀ j : Nat, j ≤ 10 → (j : Int) ≤ a →
      ReachableFrom (c7State a k P) (c7State (a - j) (k + j) (P ++ userBlock m j)) := by
  intro j
  induction j with
  | zero =>
    intro _ _
    have he : c7State (a - ((0:Nat) : Int)) (k + ((0:Nat) : Int)) (P ++ userBlock m 0) =
        c7State a k P := by
      simp [c7State, userBlock]
    rw [he]
    exact .refl _
  | succ j ih =>
    intro hj10 hja
    have hdo : ReachableFrom (c7State a k P) (c7State (a - j) (k + j) (P ++ userBlock m j)) := by
      refine ih (by omega) ?_
      have : ((j:Int)+1) ≤ a := by exact_mod_cast hja
      omega
    have hcnt : ((P ++ userBlock m j).filter (fun l => l.user_id == m)).length < 10 := by
      rw [List.filter_append, List.length_append, hP]
      have hle : ((userBlock m j).filter (fun l => l.user_id == m)).length ≤ j := by
        calc ((userBlock m j).filter (fun l => l.user_id == m)).length
            ≤ (userBlock m j).length := List.length_filter_le _ _
          _ = j := by simp [userBlock]
      omega
    have hpos : (0:Int) < a - j := by
      have : ((j:Int)+1) ≤ a := by exact_mod_cast hja
      omega
    have hstep := c7_borrow_step (P ++ userBlock m j) (a - j) (k + j) m hm1 hm2 hcnt hpos
    have hmove := ReachableFrom.step (.borrow 0 m 1) trivial hdo
    have happ : applyOp (c7State (a - j) (k + j) (P ++ userBlock m j)) (.borrow 0 m 1) =
        c7State (a - j - 1) (k + j + 1) ((P ++ userBlock m j) ++ [vipLoan m]) := by
      show (borrow_book 0 (c7State (a - j) (k + j) (P ++ userBlock m j)) m 1).1 = _
      rw [hstep]
    rw [happ] at hmove
    have he1 : a - (j:Int) - 1 = a - (((j+1):Nat) : Int) := by push_cast; ring
    have he2 : k + (j:Int) + 1 = k + (((j+1):Nat) : Int) := by push_cast; ring
    have he3 : (P ++ userBlock m j) ++ [vipLoan m] = P ++ userBlock m (j+1) := by
      rw [List.append_assoc]
      simp [userBlock, List.replicate_succ']
    rw [he1, he2, he3] at hmove
    exact hmove

theorem mem_fullLoans : ∀ (m : Nat) (l : Loan), l ∈ fullLoans m → l.user_id ≤ m := by
  intro m
  induction m with
  | zero => intro l hl; simp [fullLoans] at hl
  | succ m ih =>
    intro l hl
    rcases List.mem_append.mp hl with h | h
    · exact Nat.le_succ_of_le (ih l h)
    · have := List.eq_of_mem_replicate h
      rw [this]
      exact le_refl _

theorem fullLoans_filter_eq_zero (m u : Nat) (hu : m < u) :
    ((fullLoans m).filter (fun l => l.user_id == u)).length = 0 := by
  have hnil : (fullLoans m).filter (fun l => l.user_id == u) = [] := by
    rw [List.filter_eq_nil]
    intro l hl
    have := mem_fullLoans m l hl
    simp only [beq_iff_eq]
    omega
  rw [hnil]
  rfl

theorem c7_full_phase : ∀ m : Nat, m ≤ 99 →
    ReachableFrom (c7State 999 0 []) (c7State (999 - 10 * m) (10 * m) (fullLoans m)) := by
  intro m
  induction m with
  | zero =>
    intro _
    exact .refl _
  | succ m ih =>
    intro hm
    have h1 := ih (by omega)
    have h2 := c7_user_run (m + 1) (by omega) (by omega) (fullLoans m)
      (999 - 10 * m) (10 * m) (fullLoans_filter_eq_zero m (m + 1) (by omega))
      10 (le_refl _) (by push_cast; omega)
    have h3 := ReachableFrom.trans h1 h2
    have he1 : (999 - 10 * (m:Int)) - (((10:Nat)) : Int) = 999 - 10 * (((m+1):Nat) : Int) := by
      push_cast; ring
    have he2 : (10 * (m:Int)) + (((10:Nat)) : Int) = 10 * (((m+1):Nat) : Int) := by
      push_cast; ring
    have he3 : fullLoans m ++ userBlock (m+1) 10 = fullLoans (m+1) := rfl
    rw [he1, he2, he3] at h3
    exact h3

/-- The loans after 999 successful borrows of the digital book: users 1..99
hold ten copies each, user 100 holds nine. -/
def c7FinalLoans : List Loan := fullLoans 99 ++ userBlock 100 9

/-- The state in which all 999 sentinel copies of the digital book are out. -/
def c7Final : LibState := c7State 0 999 c7FinalLoans

theorem c7Final_reachable : Reachable c7Final := by
  have h1 : ReachableFrom emptyState (c7State 999 0 []) := c7_register_phase 100 (le_refl _)
  have h2 := c7_full_phase 99 (le_refl _)
  have h3 := c7_user_run 100 (by omega) (le_refl _) (fullLoans 99)
    (999 - 10 * (99:Nat)) (10 * (99:Nat)) (fullLoans_filter_eq_zero 99 100 (by omega))
    9 (by omega) (by norm_num)
  exact ReachableFrom.trans (ReachableFrom.trans h1 h2) h3

/-- C7 counterexample: a reachable state in which the Digital book, added
with the sentinel 999, has all copies out, and the availability check blocks
the next borrow (user 100 passes every user-side check — no fines and only
nine open loans — yet gets the all-copies-borrowed error). -/
theorem digital_availability_check_blocks :
    Reachable c7Final ∧
    findBook c7Final 1 = some (digitalBook 0 999) ∧
    (digitalBook 0 999).type = "Digital" ∧
    (digitalBook 0 999).total_copies = 999 ∧
    borrow_book 0 c7Final 100 1 = (c7Final, .allBorrowed "D") := by
  refine ⟨c7Final_reachable, rfl, rfl, rfl, ?_⟩
  have hu : findUser c7Final 100 = some (vipUser 100) :=
    find_vipUsers 100 100 (by omega) (le_refl _)
  have hcnt : borrowedCountOf c7Final 100 < (vipUser 100).membership.max_books := by
    show ((fullLoans 99 ++ userBlock 100 9).filter (fun l => l.user_id == 100)).length < 10
    rw [List.filter_append, List.length_append, fullLoans_filter_eq_zero 99 100 (by omega)]
    have hle := List.length_filter_le (fun l => l.user_id == 100) (userBlock 100 9)
    have h9 : (userBlock 100 9).length = 9 := by simp [userBlock]
    omega
  exact borrow_book_of_unavailable 0 c7Final 100 1 (vipUser 100) (digitalBook 0 999)
    hu (by norm_num [vipUser]) hcnt rfl (by norm_num [digitalBook])

/-- C7 amended: the availability check of a Digital book added with the
sentinel 999 passes in every reachable state with fewer than 999 open loans
of that book — so a borrow of it never fails the availability check below
the sentinel — but with 999 open loans it blocks
(`digital_availability_check_blocks`). -/
theorem digital_check_passes_under_capacity (s : LibState) (h : Reachable s)
    (isbn : Nat) (b : Book) (hb : findBook s isbn = some b)
    (hdig : b.type = "Digital") (htot : b.total_copies = 999)
    (hcnt : (loanCountOf s isbn : Int) < 999) :
    check_book_available s isbn = .ok b.title ∧
    ∀ today uid title, (borrow_book today s uid isbn).2 ≠ .allBorrowed title := by
  have hi := reachable_inv h
  obtain ⟨hbmem, hbisbn⟩ := findBook_eq_some hb
  have hbal := hi.balance b hbmem
  rw [hbisbn] at hbal
  have hav : 0 < b.available_copies := by omega
  have hok : check_book_available s isbn = .ok b.title := by
    simp [check_book_available, hb, not_le.mpr hav]
  refine ⟨hok, ?_⟩
  intro today uid title hcontra
  unfold borrow_book at hcontra
  rcases hchk : check_user_can_borrow s uid with _ | e <;> rw [hchk] at hcontra
  · rw [hok] at hcontra
    simp at hcontra
  · rcases check_user_can_borrow_error_cases s uid e hchk with he | ⟨f, he⟩ | ⟨mm, he⟩ <;>
      subst he <;> simp at hcontra

def wOps7 : List Op := [.addBook 1 "D" "A" "G" "Digital" 999]

def wS7 : LibState := runOps emptyState wOps7

theorem digital_check_passes_under_capacity_witness :
    check_book_available wS7 1 = .ok "D" :=
  (digital_check_passes_under_capacity wS7
    (reachableFrom_runOps emptyState wOps7 (by decide)) 1
    ⟨1, "D", "A", "G", "Digital", 999, 999, 0⟩ (by decide) rfl rfl (by decide)).1

end Library
